import Mathlib

/-!
Shallow embedding of `src/pyvision/beta/vtm.py` (VideoTaskManager).

The payload type of frames and data items is an arbitrary type `α`
(payloads are opaque to the scheduler).  Python dictionaries are modelled
as association lists, the mutable manager object as an explicit record
that every operation threads, and raised exceptions as the error branch
of `Except`; since a Python exception leaves the mutated object behind,
each error value carries the manager state at the moment of the raise.
Diagnostic printing (debug_level, warnings) has no observable effect on
the state and is not modelled; the frames handed to the downstream sinks
by `showFrames` (display and ilog) are recorded in the ghost field
`released`, in the order they were handed over.
-/

namespace PyVision

variable {α : Type}

/-- A data item of the cache, after the class `_VideoDataItem`:
the constructor unpacks a `(type, frame_id, data)` tuple and starts the
touch counter at zero. -/
structure VideoDataItem (α : Type) where
  data_type : String
  frame_id : Nat
  data : α
  touched : Nat
deriving DecidableEq

def VideoDataItem.getType (d : VideoDataItem α) : String := d.data_type

def VideoDataItem.getFrameId (d : VideoDataItem α) : Nat := d.frame_id

def VideoDataItem.getData (d : VideoDataItem α) : α := d.data

def VideoDataItem.getKey (d : VideoDataItem α) : String × Nat :=
  (d.data_type, d.frame_id)

def VideoDataItem.touch (d : VideoDataItem α) : VideoDataItem α :=
  { d with touched := d.touched + 1 }

def VideoDataItem.getTouched (d : VideoDataItem α) : Nat := d.touched

/-- A request key, as consumed by `_evaluateTask`: the code slices
`key[:2]` for the cache key and treats `len(key) > 2` as carrying a
default payload, so a key is a `(type, frame_id)` pair with an optional
third element. -/
structure RequestKey (α : Type) where
  dtype : String
  fid : Nat
  default : Option α
deriving DecidableEq

/-- One element of the list a task returns from `execute`.  In Python it
is a tuple: any tuple of length 3 is a `(type, frame_id, payload)`
triple, and a tuple of any other length only has its length observed by
the scheduler before it raises, so it is modelled by that length. -/
inductive RawItem (α : Type) where
  | triple (dtype : String) (fid : Nat) (payload : α)
  | malformed (size : Nat) (size_ne : size ≠ 3)

/-- The Python `len` of a returned data item. -/
def RawItem.size : RawItem α → Nat
  | .triple _ _ _ => 3
  | .malformed n _ => n

/-- Outcome of `task.execute(*args)`: either a value on which `len`
raises (non-enumerable), or a list of returned items. -/
inductive ExecResult (α : Type) where
  | nonEnumerable
  | items (l : List (RawItem α))

/-- A video task, after the class `VideoTask`: a frame id, the request
keys, and the `execute` body receiving one payload per request key. -/
structure VideoTask (α : Type) where
  frame_id : Nat
  args : List (RequestKey α)
  execute : List α → ExecResult α

def VideoTask.getFrameId (t : VideoTask α) : Nat := t.frame_id

def VideoTask.required (t : VideoTask α) : List (RequestKey α) := t.args

/-- The mutable state of a `VideoTaskManager` object.  `released` is a
ghost output stream recording the frames `showFrames` handed to the
downstream sinks, oldest first. -/
structure VideoTaskManager (α : Type) where
  frame_id : Nat
  task_list : List (VideoTask α)
  task_factories : List (Nat → VideoTask α)
  data_cache : List ((String × Nat) × VideoDataItem α)
  buffer_size : Nat
  frame_list : List (VideoDataItem α)
  released : List (VideoDataItem α)

/-- `VideoTaskManager.__init__`. -/
def initManager (factories : List (Nat → VideoTask α)) (buffer_size : Nat) :
    VideoTaskManager α :=
  { frame_id := 0
    task_list := []
    task_factories := factories
    data_cache := []
    buffer_size := buffer_size
    frame_list := []
    released := [] }

/-- Dictionary lookup, `self.data_cache[key]` guarded by `has_key`. -/
def cacheLookup (c : List ((String × Nat) × VideoDataItem α))
    (k : String × Nat) : Option (VideoDataItem α) :=
  match c with
  | [] => none
  | kv :: rest => if kv.1 = k then some kv.2 else cacheLookup rest k

/-- Dictionary assignment `self.data_cache[key] = item` (replace the
existing binding or append a new one). -/
def cacheInsert (c : List ((String × Nat) × VideoDataItem α))
    (k : String × Nat) (v : VideoDataItem α) :
    List ((String × Nat) × VideoDataItem α) :=
  match c with
  | [] => [(k, v)]
  | kv :: rest => if kv.1 = k then (k, v) :: rest else kv :: cacheInsert rest k v

/-- `item.touch()` applied to the cached item stored at key `k`. -/
def cacheTouch (c : List ((String × Nat) × VideoDataItem α))
    (k : String × Nat) : List ((String × Nat) × VideoDataItem α) :=
  c.map (fun kv => if kv.1 = k then (kv.1, kv.2.touch) else kv)

/-- The touch loop `for each in data_items: each.touch()`, restricted to
the items that live in the cache (touching the synthetic default items
has no observable effect). -/
def touchAll (c : List ((String × Nat) × VideoDataItem α))
    (ks : List (String × Nat)) : List ((String × Nat) × VideoDataItem α) :=
  ks.foldl cacheTouch c

/-- The input-resolution loop of `_evaluateTask` (lines 233-242): walk
the request keys in order; a cache hit contributes the cached payload
and remembers the key for the later touch loop; a miss with a default
contributes the default payload (synthetic item, nothing to touch); a
miss without a default makes the whole resolution fail (`return True`,
task kept).  Each resolved entry is `(payload, key to touch)`. -/
def resolveInputs (cache : List ((String × Nat) × VideoDataItem α)) :
    List (RequestKey α) → Option (List (α × Option (String × Nat)))
  | [] => some []
  | k :: ks =>
    match cacheLookup cache (k.dtype, k.fid) with
    | some item =>
      (resolveInputs cache ks).map
        (fun rest => (item.data, some (k.dtype, k.fid)) :: rest)
    | none =>
      match k.default with
      | some v => (resolveInputs cache ks).map (fun rest => (v, none) :: rest)
      | none => none

/-- The exceptions `_evaluateTask` can raise, carrying the manager state
at the moment of the raise (a Python exception leaves the object as it
was). -/
inductive VTMErr (α : Type) where
  | notEnumerable (st : VideoTaskManager α)
  | badArity (st : VideoTaskManager α)

def VTMErr.state : VTMErr α → VideoTaskManager α
  | .notEnumerable st => st
  | .badArity st => st

/-- The result-insertion loop of `_evaluateTask` (lines 263-267): for
each returned item, raise if its length is not 3, otherwise store it in
the cache under its first two elements. -/
def insertItems (st : VideoTaskManager α) :
    List (RawItem α) → Except (VTMErr α) (VideoTaskManager α)
  | [] => .ok st
  | .triple d f p :: rest =>
    insertItems
      { st with data_cache := cacheInsert st.data_cache (d, f) ⟨d, f, p, 0⟩ } rest
  | .malformed _ _ :: _ => .error (.badArity st)

/-- `VideoTaskManager._evaluateTask`.  Returns the updated state and the
Boolean the filter predicate returns (`true` keeps the task pending). -/
def evaluateTask (st : VideoTaskManager α) (task : VideoTask α) :
    Except (VTMErr α) (VideoTaskManager α × Bool) :=
  if (st.frame_id : Int) - (task.getFrameId : Int) > (st.buffer_size : Int) then
    .ok (st, false)
  else
    match resolveInputs st.data_cache task.required with
    | none => .ok (st, true)
    | some srcs =>
      let args := srcs.map (fun s => s.1)
      let st1 :=
        { st with data_cache := touchAll st.data_cache (srcs.filterMap (fun s => s.2)) }
      match task.execute args with
      | .nonEnumerable => .error (.notEnumerable st1)
      | .items l =>
        match insertItems st1 l with
        | .error e => .error e
        | .ok st2 => .ok (st2, false)

/-- One `filter(self._evaluateTask, self.task_list)` pass: the predicate
is applied left to right with its side effects threaded, and the kept
tasks are collected in order. -/
def evalPass (st : VideoTaskManager α) :
    List (VideoTask α) →
      Except (VTMErr α) (VideoTaskManager α × List (VideoTask α))
  | [] => .ok (st, [])
  | t :: ts =>
    match evaluateTask st t with
    | .error e => .error e
    | .ok (st1, keep) =>
      match evalPass st1 ts with
      | .error e => .error e
      | .ok (st2, kept) => .ok (st2, if keep then t :: kept else kept)

/-- The `while True` loop of `_runTasks`, with explicit fuel.  Each
iteration runs one pass, assigns the filtered list to `task_list`, and
stops when the pass kept as many tasks as it started with.  A pass that
makes progress strictly shrinks the list, so fuel `length + 1` always
reaches the stopping condition; the fuel-exhausted branch is
unreachable for that fuel (proved below as fuel irrelevance). -/
def runTasksFuel : Nat → VideoTaskManager α → List (VideoTask α) →
    Except (VTMErr α) (VideoTaskManager α)
  | 0, st, tasks => .ok { st with task_list := tasks }
  | fuel + 1, st, tasks =>
    match evalPass st tasks with
    | .error e => .error e
    | .ok (st1, kept) =>
      let st2 := { st1 with task_list := kept }
      if kept.length = tasks.length then .ok st2
      else runTasksFuel fuel st2 kept

/-- `VideoTaskManager._runTasks`. -/
def runTasks (st : VideoTaskManager α) :
    Except (VTMErr α) (VideoTaskManager α) :=
  runTasksFuel (st.task_list.length + 1) st st.task_list

/-- `VideoTaskManager._createTasksForFrame`: call every factory with the
frame id and append the produced tasks, in registration order. -/
def createTasksForFrame (st : VideoTaskManager α) (fid : Nat) :
    VideoTaskManager α :=
  { st with
      task_list := st.task_list ++ st.task_factories.map (fun factory => factory fid) }

/-- `VideoTaskManager._cleanUp`: delete every cached item whose frame id
is older than `frame_id - buffer_size` (Python integer arithmetic, so
the threshold may be negative). -/
def cleanUp (st : VideoTaskManager α) : VideoTaskManager α :=
  { st with
      data_cache := st.data_cache.filter
        (fun kv =>
          ! decide
            ((kv.2.getFrameId : Int) < (st.frame_id : Int) - (st.buffer_size : Int))) }

/-- The count computed by `VideoTaskManager._remainingTasksForFrame`,
parameterised by the task list it scans. -/
def countTasksForFrame (tasks : List (VideoTask α)) (fid : Nat) : Nat :=
  tasks.countP (fun t => t.getFrameId == fid)

/-- `VideoTaskManager._remainingTasksForFrame`. -/
def remainingTasksForFrame (st : VideoTaskManager α) (fid : Nat) : Nat :=
  countTasksForFrame st.task_list fid

/-- The `while` loop of `showFrames`: pop frames off the head of the
queue while the head has no remaining tasks; stop at the first head
that still has one.  Returns the popped frames (in order) and the
remaining queue. -/
def showFramesAux (tasks : List (VideoTask α)) :
    List (VideoDataItem α) → List (VideoDataItem α) × List (VideoDataItem α)
  | [] => ([], [])
  | d :: rest =>
    if countTasksForFrame tasks d.getFrameId = 0 then
      let res := showFramesAux tasks rest
      (d :: res.1, res.2)
    else ([], d :: rest)

/-- `VideoTaskManager.showFrames`: the popped frames are handed to the
downstream sinks, recorded here by appending them to `released`. -/
def showFrames (st : VideoTaskManager α) : VideoTaskManager α :=
  let res := showFramesAux st.task_list st.frame_list
  { st with frame_list := res.2, released := st.released ++ res.1 }

/-- The state `addFrame` has built just before it calls `_runTasks`:
the FRAME item is cached, the factories have run, and the frame item is
appended to the frame queue. -/
def addFramePre (st : VideoTaskManager α) (frame : α) : VideoTaskManager α :=
  let frame_data : VideoDataItem α := ⟨"FRAME", st.frame_id, frame, 0⟩
  let st1 := { st with data_cache := cacheInsert st.data_cache frame_data.getKey frame_data }
  let st2 := createTasksForFrame st1 st1.frame_id
  { st2 with frame_list := st2.frame_list ++ [frame_data] }

/-- `VideoTaskManager.addFrame`: ingest one frame, run the task loop,
clean up, advance the frame counter, and release completed frames.  An
exception escaping `_runTasks` aborts the call there, leaving the
counter unincremented and the queue untouched. -/
def addFrame (st : VideoTaskManager α) (frame : α) :
    Except (VTMErr α) (VideoTaskManager α) :=
  match runTasks (addFramePre st frame) with
  | .error e => .error e
  | .ok st4 =>
    let st5 := cleanUp st4
    let st6 := { st5 with frame_id := st5.frame_id + 1 }
    .ok (showFrames st6)

/-- A whole run: feed the frames to `addFrame` one after the other. -/
def runFrames (st : VideoTaskManager α) : List α →
    Except (VTMErr α) (VideoTaskManager α)
  | [] => .ok st
  | f :: fs =>
    match addFrame st f with
    | .error e => .error e
    | .ok st1 => runFrames st1 fs

/-! ## Basic lemmas about the cache operations -/

lemma cacheInsert_lookup (c : List ((String × Nat) × VideoDataItem α))
    (k : String × Nat) (v : VideoDataItem α) (k2 : String × Nat) :
    cacheLookup (cacheInsert c k v) k2 =
      if k2 = k then some v else cacheLookup c k2 := by
  induction c with
  | nil =>
    by_cases h : k2 = k
    · simp [cacheInsert, cacheLookup, h]
    · have h2 : ¬(k = k2) := fun h3 => h h3.symm
      simp [cacheInsert, cacheLookup, h, h2]
  | cons kv rest ih =>
    by_cases h1 : kv.1 = k <;> by_cases h2 : k2 = k <;>
      simp_all [cacheInsert, cacheLookup] <;>
      by_cases h3 : kv.1 = k2 <;> simp_all

lemma cacheTouch_lookup_none (c : List ((String × Nat) × VideoDataItem α))
    (k k2 : String × Nat) :
    cacheLookup (cacheTouch c k) k2 = none ↔ cacheLookup c k2 = none := by
  induction c with
  | nil => simp [cacheTouch, cacheLookup]
  | cons kv rest ih =>
    by_cases h1 : kv.1 = k <;> by_cases h3 : kv.1 = k2 <;>
      simp_all [cacheTouch, cacheLookup]

lemma touchAll_lookup_none (ks : List (String × Nat))
    (c : List ((String × Nat) × VideoDataItem α)) (k2 : String × Nat) :
    cacheLookup (touchAll c ks) k2 = none ↔ cacheLookup c k2 = none := by
  induction ks generalizing c with
  | nil => simp [touchAll]
  | cons k ks ih =>
    simpa [touchAll, List.foldl_cons] using
      (ih (cacheTouch c k)).trans (cacheTouch_lookup_none c k k2)

/-! ## Shape lemmas: which fields each operation can modify -/

lemma insertItems_ok_shape :
    ∀ (l : List (RawItem α)) (st st2 : VideoTaskManager α),
      insertItems st l = .ok st2 → ∃ c, st2 = { st with data_cache := c } := by
  intro l
  induction l with
  | nil =>
    intro st st2 h
    simp only [insertItems, Except.ok.injEq] at h
    exact ⟨st.data_cache, h ▸ rfl⟩
  | cons x rest ih =>
    intro st st2 h
    cases x with
    | triple d f p =>
      simp only [insertItems] at h
      obtain ⟨c, rfl⟩ := ih _ _ h
      exact ⟨c, rfl⟩
    | malformed n hn => simp [insertItems] at h

lemma insertItems_err_shape :
    ∀ (l : List (RawItem α)) (st : VideoTaskManager α) (e : VTMErr α),
      insertItems st l = .error e →
      ∃ c, e = .badArity { st with data_cache := c } := by
  intro l
  induction l with
  | nil => intro st e h; simp [insertItems] at h
  | cons x rest ih =>
    intro st e h
    cases x with
    | triple d f p =>
      simp only [insertItems] at h
      obtain ⟨c, rfl⟩ := ih _ _ h
      exact ⟨c, rfl⟩
    | malformed n hn =>
      simp only [insertItems, Except.error.injEq] at h
      exact ⟨st.data_cache, h ▸ rfl⟩

lemma evaluateTask_ok_shape (st : VideoTaskManager α) (t : VideoTask α)
    (st2 : VideoTaskManager α) (b : Bool)
    (h : evaluateTask st t = .ok (st2, b)) :
    ∃ c, st2 = { st with data_cache := c } := by
  simp only [evaluateTask] at h
  split at h
  · obtain ⟨h1, h2⟩ := Prod.mk.injEq .. ▸ Except.ok.inj h
    exact ⟨st.data_cache, h1 ▸ rfl⟩
  · split at h
    · obtain ⟨h1, h2⟩ := Prod.mk.injEq .. ▸ Except.ok.inj h
      exact ⟨st.data_cache, h1 ▸ rfl⟩
    · split at h
      · exact absurd h (by simp)
      · split at h
        · exact absurd h (by simp)
        · obtain ⟨h1, h2⟩ := Prod.mk.injEq .. ▸ Except.ok.inj h
          rename_i st3 hins
          obtain ⟨c, rfl⟩ := insertItems_ok_shape _ _ _ hins
          exact ⟨c, h1 ▸ rfl⟩

lemma evaluateTask_err_shape (st : VideoTaskManager α) (t : VideoTask α)
    (e : VTMErr α) (h : evaluateTask st t = .error e) :
    ∃ c, e.state = { st with data_cache := c } := by
  simp only [evaluateTask] at h
  split at h
  · exact absurd h (by simp)
  · split at h
    · exact absurd h (by simp)
    · split at h
      · obtain rfl := (Except.error.inj h).symm
        exact ⟨_, rfl⟩
      · split at h
        · rename_i e2 herr
          obtain ⟨c, rfl⟩ := insertItems_err_shape _ _ _ herr
          obtain rfl := (Except.error.inj h).symm
          exact ⟨c, rfl⟩
        · exact absurd h (by simp)

lemma evalPass_ok_shape :
    ∀ (ts : List (VideoTask α)) (st st2 : VideoTaskManager α)
      (kept : List (VideoTask α)),
      evalPass st ts = .ok (st2, kept) →
      ∃ c, st2 = { st with data_cache := c } := by
  intro ts
  induction ts with
  | nil =>
    intro st st2 kept h
    simp only [evalPass, Except.ok.injEq, Prod.mk.injEq] at h
    exact ⟨st.data_cache, h.1 ▸ rfl⟩
  | cons t ts ih =>
    intro st st2 kept h
    simp only [evalPass] at h
    split at h
    · exact absurd h (by simp)
    · rename_i st1 keep heval
      split at h
      · exact absurd h (by simp)
      · rename_i st3 kept3 hpass
        obtain ⟨h1, h2⟩ := Prod.mk.injEq .. ▸ Except.ok.inj h
        obtain ⟨c1, rfl⟩ := evaluateTask_ok_shape _ _ _ _ heval
        obtain ⟨c2, rfl⟩ := ih _ _ _ hpass
        exact ⟨c2, h1 ▸ rfl⟩

lemma evalPass_err_shape :
    ∀ (ts : List (VideoTask α)) (st : VideoTaskManager α) (e : VTMErr α),
      evalPass st ts = .error e →
      ∃ c, e.state = { st with data_cache := c } := by
  intro ts
  induction ts with
  | nil => intro st e h; simp [evalPass] at h
  | cons t ts ih =>
    intro st e h
    simp only [evalPass] at h
    split at h
    · rename_i e2 heval
      obtain ⟨c, hc⟩ := evaluateTask_err_shape _ _ _ heval
      exact ⟨c, (Except.error.inj h) ▸ hc⟩
    · rename_i st1 keep heval
      split at h
      · rename_i e2 hpass
        obtain ⟨c1, rfl⟩ := evaluateTask_ok_shape _ _ _ _ heval
        obtain ⟨c2, hc⟩ := ih _ _ hpass
        exact ⟨c2, (Except.error.inj h) ▸ hc⟩
      · exact absurd h (by simp)

lemma runTasksFuel_ok_shape :
    ∀ (fuel : Nat) (st : VideoTaskManager α) (ts : List (VideoTask α))
      (st2 : VideoTaskManager α),
      runTasksFuel fuel st ts = .ok st2 →
      ∃ c l, st2 = { st with data_cache := c, task_list := l } := by
  intro fuel
  induction fuel with
  | zero =>
    intro st ts st2 h
    simp only [runTasksFuel, Except.ok.injEq] at h
    exact ⟨st.data_cache, ts, h ▸ rfl⟩
  | succ fuel ih =>
    intro st ts st2 h
    simp only [runTasksFuel] at h
    split at h
    · exact absurd h (by simp)
    · rename_i st1 kept hpass
      split at h
      · obtain ⟨c1, rfl⟩ := evalPass_ok_shape _ _ _ _ hpass
        exact ⟨c1, kept, (Except.ok.inj h) ▸ rfl⟩
      · obtain ⟨c1, rfl⟩ := evalPass_ok_shape _ _ _ _ hpass
        obtain ⟨c2, l2, rfl⟩ := ih _ _ _ h
        exact ⟨c2, l2, rfl⟩

lemma runTasksFuel_err_shape :
    ∀ (fuel : Nat) (st : VideoTaskManager α) (ts : List (VideoTask α))
      (e : VTMErr α),
      runTasksFuel fuel st ts = .error e →
      ∃ c l, e.state = { st with data_cache := c, task_list := l } := by
  intro fuel
  induction fuel with
  | zero => intro st ts e h; simp [runTasksFuel] at h
  | succ fuel ih =>
    intro st ts e h
    simp only [runTasksFuel] at h
    split at h
    · rename_i e2 hpass
      obtain ⟨c, hc⟩ := evalPass_err_shape _ _ _ hpass
      obtain rfl := (Except.error.inj h).symm
      exact ⟨c, st.task_list, hc⟩
    · rename_i st1 kept hpass
      split at h
      · exact absurd h (by simp)
      · obtain ⟨c1, rfl⟩ := evalPass_ok_shape _ _ _ _ hpass
        obtain ⟨c2, l2, hc⟩ := ih _ _ _ h
        exact ⟨c2, l2, hc⟩

/-! ## Characterisation of kept tasks and of the evaluation loop -/

lemma evaluateTask_kept (st : VideoTaskManager α) (t : VideoTask α)
    (st2 : VideoTaskManager α) (h : evaluateTask st t = .ok (st2, true)) :
    st2 = st ∧ (st.frame_id : Int) - (t.getFrameId : Int) ≤ (st.buffer_size : Int) ∧
      resolveInputs st.data_cache t.required = none := by
  simp only [evaluateTask] at h
  split at h
  · simp at h
  · rename_i hstale
    split at h
    · rename_i hres
      obtain ⟨h1, _⟩ := Prod.mk.injEq .. ▸ Except.ok.inj h
      exact ⟨h1.symm, by omega, hres⟩
    · split at h
      · simp at h
      · split at h
        · simp at h
        · simp at h

lemma evalPass_length :
    ∀ (ts : List (VideoTask α)) (st st2 : VideoTaskManager α)
      (kept : List (VideoTask α)),
      evalPass st ts = .ok (st2, kept) → kept.length ≤ ts.length := by
  intro ts
  induction ts with
  | nil =>
    intro st st2 kept h
    simp only [evalPass, Except.ok.injEq, Prod.mk.injEq] at h
    simp [← h.2]
  | cons t ts ih =>
    intro st st2 kept h
    simp only [evalPass] at h
    split at h
    · simp at h
    · rename_i st1 keep heval
      split at h
      · simp at h
      · rename_i st3 kept3 hpass
        obtain ⟨h1, h2⟩ := Prod.mk.injEq .. ▸ Except.ok.inj h
        have := ih _ _ _ hpass
        cases keep <;> simp [← h2] <;> omega

lemma runTasksFuel_congr :
    ∀ (fuel1 fuel2 : Nat) (st : VideoTaskManager α) (ts : List (VideoTask α)),
      ts.length < fuel1 → ts.length < fuel2 →
      runTasksFuel fuel1 st ts = runTasksFuel fuel2 st ts := by
  intro fuel1
  induction fuel1 with
  | zero => intro fuel2 st ts h1 h2; omega
  | succ f1 ih =>
    intro fuel2 st ts h1 h2
    cases fuel2 with
    | zero => omega
    | succ f2 =>
      simp only [runTasksFuel]
      cases hpass : evalPass st ts with
      | error e => rfl
      | ok p =>
        obtain ⟨st1, kept⟩ := p
        by_cases hlen : kept.length = ts.length
        · simp [hlen]
        · have hle := evalPass_length _ _ _ _ hpass
          simp only [hlen, if_false]
          exact ih f2 _ kept (by omega) (by omega)

lemma evalPass_kept :
    ∀ (ts : List (VideoTask α)) (st st2 : VideoTaskManager α)
      (kept : List (VideoTask α)),
      evalPass st ts = .ok (st2, kept) →
      ∀ t ∈ kept, ∃ s1 s2 : VideoTaskManager α,
        s1.frame_id = st.frame_id ∧ s1.buffer_size = st.buffer_size ∧
        evaluateTask s1 t = .ok (s2, true) := by
  intro ts
  induction ts with
  | nil =>
    intro st st2 kept h
    simp only [evalPass, Except.ok.injEq, Prod.mk.injEq] at h
    simp [← h.2]
  | cons t0 ts ih =>
    intro st st2 kept h t ht
    simp only [evalPass] at h
    split at h
    · simp at h
    · rename_i st1 keep heval
      split at h
      · simp at h
      · rename_i st3 kept3 hpass
        obtain ⟨h1, h2⟩ := Prod.mk.injEq .. ▸ Except.ok.inj h
        obtain ⟨c1, rfl⟩ := evaluateTask_ok_shape _ _ _ _ heval
        cases keep with
        | true =>
          rw [← h2] at ht
          simp only [if_true] at ht
          rcases List.mem_cons.mp ht with rfl | ht2
          · exact ⟨st, _, rfl, rfl, heval⟩
          · obtain ⟨s1, s2, hf, hb, he⟩ := ih _ _ _ hpass t ht2
            exact ⟨s1, s2, hf, hb, he⟩
        | false =>
          rw [← h2] at ht
          simp at ht
          obtain ⟨s1, s2, hf, hb, he⟩ := ih _ _ _ hpass t ht
          exact ⟨s1, s2, hf, hb, he⟩

lemma runTasksFuel_kept :
    ∀ (fuel : Nat) (st : VideoTaskManager α) (ts : List (VideoTask α))
      (st2 : VideoTaskManager α),
      ts.length < fuel → runTasksFuel fuel st ts = .ok st2 →
      ∀ t ∈ st2.task_list, ∃ s1 s2 : VideoTaskManager α,
        s1.frame_id = st.frame_id ∧ s1.buffer_size = st.buffer_size ∧
        evaluateTask s1 t = .ok (s2, true) := by
  intro fuel
  induction fuel with
  | zero => intro st ts st2 h1; omega
  | succ f1 ih =>
    intro st ts st2 h1 h t ht
    simp only [runTasksFuel] at h
    split at h
    · simp at h
    · rename_i st1 kept hpass
      obtain ⟨c1, rfl⟩ := evalPass_ok_shape _ _ _ _ hpass
      split at h
      · obtain rfl := Except.ok.inj h
        exact evalPass_kept _ _ _ _ hpass t ht
      · rename_i hlen
        have hle := evalPass_length _ _ _ _ hpass
        obtain ⟨s1, s2, hf, hb, he⟩ := ih _ _ _ (by omega) h t ht
        exact ⟨s1, s2, hf, hb, he⟩

/-! ## Decomposition of the frame-release loop -/

lemma showFramesAux_spec (tasks : List (VideoTask α)) :
    ∀ fl : List (VideoDataItem α),
      fl = (showFramesAux tasks fl).1 ++ (showFramesAux tasks fl).2 ∧
      (∀ d ∈ (showFramesAux tasks fl).1, countTasksForFrame tasks d.getFrameId = 0) ∧
      (∀ d rest2, (showFramesAux tasks fl).2 = d :: rest2 →
        countTasksForFrame tasks d.getFrameId ≠ 0) := by
  intro fl
  induction fl with
  | nil => simp [showFramesAux]
  | cons d rest ih =>
    by_cases hc : countTasksForFrame tasks d.getFrameId = 0
    · simp only [showFramesAux, if_pos hc]
      refine ⟨?_, ?_, ?_⟩
      · simpa using ih.1
      · intro d2 hd2
        rcases List.mem_cons.mp hd2 with rfl | hd3
        · exact hc
        · exact ih.2.1 d2 hd3
      · exact ih.2.2
    · simp only [showFramesAux, if_neg hc]
      refine ⟨by simp, by simp, ?_⟩
      intro d2 rest2 heq
      obtain ⟨rfl, rfl⟩ := List.cons.injEq .. ▸ heq
      exact hc

lemma showFrames_queue (st : VideoTaskManager α) :
    (showFrames st).released ++ (showFrames st).frame_list =
      st.released ++ st.frame_list := by
  have h := (showFramesAux_spec st.task_list st.frame_list).1
  simp only [showFrames]
  rw [List.append_assoc, ← h]

/-! ## Lemmas about one `addFrame` call -/

lemma addFrame_ok_elim (st : VideoTaskManager α) (f : α)
    (st2 : VideoTaskManager α) (h : addFrame st f = .ok st2) :
    ∃ st4, runTasks (addFramePre st f) = .ok st4 ∧
      st2 = showFrames { cleanUp st4 with frame_id := (cleanUp st4).frame_id + 1 } := by
  simp only [addFrame] at h
  split at h
  · simp at h
  · rename_i st4 hrt
    exact ⟨st4, hrt, (Except.ok.inj h).symm⟩

lemma runTasks_ok_shape (st st2 : VideoTaskManager α)
    (h : runTasks st = .ok st2) :
    ∃ c l, st2 = { st with data_cache := c, task_list := l } :=
  runTasksFuel_ok_shape _ _ _ _ h

lemma runTasks_kept (st st2 : VideoTaskManager α) (h : runTasks st = .ok st2) :
    ∀ t ∈ st2.task_list, ∃ s1 s2 : VideoTaskManager α,
      s1.frame_id = st.frame_id ∧ s1.buffer_size = st.buffer_size ∧
      evaluateTask s1 t = .ok (s2, true) :=
  runTasksFuel_kept _ _ _ _ (Nat.lt_succ_self _) h

lemma addFrame_queue (st : VideoTaskManager α) (f : α)
    (st2 : VideoTaskManager α) (h : addFrame st f = .ok st2) :
    st2.released ++ st2.frame_list =
      st.released ++ st.frame_list ++ [⟨"FRAME", st.frame_id, f, 0⟩] ∧
    st2.frame_id = st.frame_id + 1 ∧ st2.buffer_size = st.buffer_size := by
  obtain ⟨st4, hrt, rfl⟩ := addFrame_ok_elim _ _ _ h
  obtain ⟨c, l, rfl⟩ := runTasks_ok_shape _ _ hrt
  refine ⟨?_, rfl, rfl⟩
  rw [showFrames_queue]
  simp [cleanUp, addFramePre, createTasksForFrame]

lemma runFrames_queue :
    ∀ (fs : List α) (st st2 : VideoTaskManager α),
      runFrames st fs = .ok st2 →
      (st2.released ++ st2.frame_list).map VideoDataItem.getData =
        (st.released ++ st.frame_list).map VideoDataItem.getData ++ fs := by
  intro fs
  induction fs with
  | nil =>
    intro st st2 h
    simp only [runFrames, Except.ok.injEq] at h
    rw [h]
    simp
  | cons f fs ih =>
    intro st st2 h
    simp only [runFrames] at h
    split at h
    · simp at h
    · rename_i st1 hadd
      rw [ih _ _ h, (addFrame_queue _ _ _ hadd).1]
      simp [VideoDataItem.getData]

lemma cleanUp_bound (st : VideoTaskManager α) :
    ∀ kv ∈ (cleanUp st).data_cache,
      (st.frame_id : Int) - (st.buffer_size : Int) ≤ (kv.2.getFrameId : Int) := by
  intro kv hkv
  simp only [cleanUp, List.mem_filter] at hkv
  have h2 := hkv.2
  simp only [Bool.not_eq_eq_eq_not, Bool.not_true, decide_eq_false_iff_not, not_lt] at h2
  exact h2

/-! ## The claims -/

/-- C1: a frame is handed to the downstream sinks only when it is at the
head of the frame queue (the popped frames form an initial segment of
the queue) and no pending task carries its frame id; consequently, for
every sequence of `addFrame` calls that returns normally, the sequence
of released frame payloads is a prefix of the ingestion sequence, in
ingestion order. -/
theorem frames_released_in_ingestion_order {α : Type}
    (factories : List (Nat → VideoTask α)) (W : Nat) (frames : List α)
    (st2 : VideoTaskManager α)
    (h : runFrames (initManager factories W) frames = .ok st2) :
    (∀ s : VideoTaskManager α, ∃ taken rest,
      s.frame_list = taken ++ rest ∧
      (showFrames s).released = s.released ++ taken ∧
      (showFrames s).frame_list = rest ∧
      ∀ d ∈ taken, remainingTasksForFrame s d.getFrameId = 0) ∧
    st2.released.map VideoDataItem.getData <+: frames := by
  constructor
  · intro s
    obtain ⟨hdec, hmem, _⟩ := showFramesAux_spec s.task_list s.frame_list
    exact ⟨(showFramesAux s.task_list s.frame_list).1,
      (showFramesAux s.task_list s.frame_list).2, hdec, rfl, rfl, hmem⟩
  · have hq := runFrames_queue frames (initManager factories W) st2 h
    simp only [initManager, List.append_nil, List.map_nil, List.nil_append] at hq
    exact ⟨st2.frame_list.map VideoDataItem.getData, by rw [← List.map_append, hq]⟩

/-- C1 witness: a concrete three-frame run with no registered factories
releases exactly the ingested payloads, in order. -/
theorem frames_released_in_ingestion_order_witness :
    ∃ st2 : VideoTaskManager Nat,
      runFrames (initManager [] 2) [10, 20, 30] = .ok st2 ∧
      st2.released.map VideoDataItem.getData <+: [10, 20, 30] :=
  ⟨_, rfl, (frames_released_in_ingestion_order [] 2 [10, 20, 30] _ rfl).2⟩

/-- C2 (amended): after each `addFrame` call returns, every item in the
data cache satisfies `frame_id ≥ next_frame_id − W − 1` (the cleanup
pass runs before the frame counter is incremented, so one extra frame of
history survives each call). -/
theorem cache_window_bound (st : VideoTaskManager α) (f : α)
    (st2 : VideoTaskManager α) (h : addFrame st f = .ok st2) :
    ∀ kv ∈ st2.data_cache,
      (st2.frame_id : Int) - (st2.buffer_size : Int) - 1 ≤ (kv.2.getFrameId : Int) := by
  obtain ⟨st4, hrt, rfl⟩ := addFrame_ok_elim _ _ _ h
  intro kv hkv
  have hmem : kv ∈ (cleanUp st4).data_cache := hkv
  have hb := cleanUp_bound st4 kv hmem
  have hfid : (showFrames { cleanUp st4 with frame_id := (cleanUp st4).frame_id + 1 }).frame_id
      = st4.frame_id + 1 := rfl
  have hbuf : (showFrames { cleanUp st4 with frame_id := (cleanUp st4).frame_id + 1 }).buffer_size
      = st4.buffer_size := rfl
  rw [hfid, hbuf]
  push_cast
  omega

/-- C2 witness: a two-frame run with window 1 satisfies the amended
bound on every cached item. -/
theorem cache_window_bound_witness :
    ∃ st2 : VideoTaskManager Nat,
      addFrame (initManager [] 1) 5 = .ok st2 ∧
      ∀ kv ∈ st2.data_cache,
        (st2.frame_id : Int) - (st2.buffer_size : Int) - 1 ≤ (kv.2.getFrameId : Int) :=
  ⟨_, rfl, cache_window_bound (initManager [] 1) 5 _ rfl⟩

/-- C2 counterexample: with `W = 1` and no factories, after the second
`addFrame` returns the FRAME item of frame 0 is still cached although
`next_frame_id − W = 1`, refuting `frame_id ≥ next_frame_id − W`. -/
theorem cache_window_claimed_bound_fails :
    ∃ st2 : VideoTaskManager Nat,
      runFrames (initManager [] 1) [5, 7] = .ok st2 ∧
      ∃ kv ∈ st2.data_cache,
        ¬((st2.frame_id : Int) - (st2.buffer_size : Int) ≤ (kv.2.getFrameId : Int)) :=
  ⟨_, rfl, by decide⟩

/-- C3 (amended): during evaluation a task whose frame id is more than
`W` behind the current frame counter is dropped rather than kept, and
consequently, after each `addFrame` call returns, every pending task
satisfies `next_frame_id − task.frame_id ≤ W + 1` (the staleness check
runs before the frame counter is incremented, so a task can lag one
frame beyond `W` between calls). -/
theorem pending_window_bound (st : VideoTaskManager α) (f : α)
    (st2 : VideoTaskManager α) (h : addFrame st f = .ok st2) :
    (∀ s : VideoTaskManager α, ∀ t : VideoTask α,
      (s.frame_id : Int) - (t.getFrameId : Int) > (s.buffer_size : Int) →
      evaluateTask s t = .ok (s, false)) ∧
    (∀ t ∈ st2.task_list,
      (st2.frame_id : Int) - (t.getFrameId : Int) ≤ (st2.buffer_size : Int) + 1) := by
  constructor
  · intro s t hstale
    simp [evaluateTask, hstale]
  · intro t ht
    obtain ⟨st4, hrt, rfl⟩ := addFrame_ok_elim _ _ _ h
    have ht4 : t ∈ st4.task_list := ht
    obtain ⟨s1, s2, hf, hb, he⟩ := runTasks_kept _ _ hrt t ht4
    obtain ⟨_, hbound, _⟩ := evaluateTask_kept _ _ _ he
    obtain ⟨c, l, rfl⟩ := runTasks_ok_shape _ _ hrt
    have hfid : (showFrames { cleanUp { addFramePre st f with data_cache := c, task_list := l } with
        frame_id := (cleanUp { addFramePre st f with data_cache := c, task_list := l }).frame_id + 1 }).frame_id
        = st.frame_id + 1 := rfl
    have hbuf : (showFrames { cleanUp { addFramePre st f with data_cache := c, task_list := l } with
        frame_id := (cleanUp { addFramePre st f with data_cache := c, task_list := l }).frame_id + 1 }).buffer_size
        = st.buffer_size := rfl
    rw [hfid, hbuf]
    have hf3 : s1.frame_id = st.frame_id := hf
    have hb3 : s1.buffer_size = st.buffer_size := hb
    rw [hf3, hb3] at hbound
    push_cast
    omega

/-- A task factory whose tasks wait for a data key that no task ever
produces; its tasks stay pending until the staleness eviction removes
them. -/
def blockedFactory : Nat → VideoTask Nat :=
  fun fid => { frame_id := fid, args := [⟨"NOPE", fid, none⟩], execute := fun _ => .items [] }

/-- C3 counterexample: with `W = 1` and a factory whose tasks never
become ready, after the second `addFrame` returns the task of frame 0
is still pending although `next_frame_id − 0 = 2 > W`, refuting
`next_frame_id − task.frame_id ≤ W` as a post-call invariant. -/
theorem pending_window_claimed_bound_fails :
    ∃ st2 : VideoTaskManager Nat,
      runFrames (initManager [blockedFactory] 1) [5, 7] = .ok st2 ∧
      ∃ t ∈ st2.task_list,
        ¬((st2.frame_id : Int) - (t.getFrameId : Int) ≤ (st2.buffer_size : Int)) :=
  ⟨_, rfl, by decide⟩

/-- C3 witness: a concrete `addFrame` call whose surviving tasks all
satisfy the amended bound. -/
theorem pending_window_bound_witness :
    ∃ st2 : VideoTaskManager Nat,
      addFrame (initManager [blockedFactory] 1) 5 = .ok st2 ∧
      ((∀ s : VideoTaskManager Nat, ∀ t : VideoTask Nat,
        (s.frame_id : Int) - (t.getFrameId : Int) > (s.buffer_size : Int) →
        evaluateTask s t = .ok (s, false)) ∧
      (∀ t ∈ st2.task_list,
        (st2.frame_id : Int) - (t.getFrameId : Int) ≤ (st2.buffer_size : Int) + 1)) :=
  ⟨_, rfl, pending_window_bound (initManager [blockedFactory] 1) 5 _ rfl⟩

/-- C7: after an `addFrame` call that returns normally, no task whose
`required()` list is empty remains pending: a task is only kept when
some required key is unresolved, which needs at least one request key. -/
theorem no_empty_requirement_task_remains (st : VideoTaskManager α) (f : α)
    (st2 : VideoTaskManager α) (h : addFrame st f = .ok st2) :
    ∀ t ∈ st2.task_list, t.required ≠ [] := by
  intro t ht
  obtain ⟨st4, hrt, rfl⟩ := addFrame_ok_elim _ _ _ h
  have ht4 : t ∈ st4.task_list := ht
  obtain ⟨s1, s2, _, _, he⟩ := runTasks_kept _ _ hrt t ht4
  obtain ⟨_, _, hres⟩ := evaluateTask_kept _ _ _ he
  intro hreq
  rw [hreq] at hres
  simp [resolveInputs] at hres

/-- A factory producing tasks with no requirements at all; they fire in
the first evaluation pass. -/
def emptyReqFactory : Nat → VideoTask Nat :=
  fun fid => { frame_id := fid, args := [], execute := fun _ => .items [] }

/-- C7 witness: after a concrete `addFrame` with a no-requirement
factory registered, no pending task has an empty requirement list. -/
theorem no_empty_requirement_task_remains_witness :
    ∃ st2 : VideoTaskManager Nat,
      addFrame (initManager [emptyReqFactory, blockedFactory] 3) 5 = .ok st2 ∧
      ∀ t ∈ st2.task_list, t.required ≠ [] :=
  ⟨_, rfl, no_empty_requirement_task_remains
    (initManager [emptyReqFactory, blockedFactory] 3) 5 _ rfl⟩

/-- C8: when `_evaluateTask` keeps a task because a required key is
missing, the manager state is completely unchanged by that evaluation
(no cache insertion and no touch increment), since the touch loop only
runs after every request key has resolved. -/
theorem keep_leaves_state_unchanged (st : VideoTaskManager α)
    (t : VideoTask α) (st2 : VideoTaskManager α)
    (h : evaluateTask st t = .ok (st2, true)) : st2 = st :=
  (evaluateTask_kept _ _ _ h).1

/-- C8 witness: evaluating a concrete blocked task returns keep with
the state it was given. -/
theorem keep_leaves_state_unchanged_witness :
    evaluateTask (initManager [blockedFactory] 3) (blockedFactory 0) =
      .ok (initManager [blockedFactory] 3, true) ∧
    initManager (α := Nat) [blockedFactory] 3 = initManager [blockedFactory] 3 :=
  ⟨rfl, keep_leaves_state_unchanged (initManager [blockedFactory] 3)
    (blockedFactory 0) _ rfl⟩

/-! ## Error-path lemmas -/

lemma resolveInputs_none_of_missing :
    ∀ (args : List (RequestKey α))
      (cache : List ((String × Nat) × VideoDataItem α)),
      (∃ k ∈ args, k.default = none ∧ cacheLookup cache (k.dtype, k.fid) = none) →
      resolveInputs cache args = none := by
  intro args cache
  induction args with
  | nil => rintro ⟨k, hk, _⟩; simp at hk
  | cons k0 ks ih =>
    rintro ⟨k, hk, hdef, hlook⟩
    rcases List.mem_cons.mp hk with rfl | hk2
    · simp [resolveInputs, hlook, hdef]
    · simp only [resolveInputs]
      cases hl : cacheLookup cache (k0.dtype, k0.fid) with
      | some item => rw [ih ⟨k, hk2, hdef, hlook⟩]; rfl
      | none =>
        cases hd : k0.default with
        | some v => rw [ih ⟨k, hk2, hdef, hlook⟩]; rfl
        | none => rfl

lemma insertItems_err_of_bad :
    ∀ (l : List (RawItem α)) (st : VideoTaskManager α),
      (∃ x ∈ l, x.size ≠ 3) → ∃ e, insertItems st l = .error e := by
  intro l
  induction l with
  | nil => rintro st ⟨x, hx, _⟩; simp at hx
  | cons x rest ih =>
    rintro st ⟨y, hy, hsize⟩
    cases x with
    | triple d f p =>
      rcases List.mem_cons.mp hy with rfl | hy2
      · simp [RawItem.size] at hsize
      · simp only [insertItems]
        exact ih _ ⟨y, hy2, hsize⟩
    | malformed n hn => exact ⟨_, rfl⟩

/-- C4: a task whose `execute` returns a non-enumerable value, or
returns an item whose length is not 3, makes the evaluation raise, and
the exception propagates through the pass, the task loop and `addFrame`
to the caller; whereas a required (length-2) key missing from the cache
raises nothing: the evaluation returns keep with the state unchanged,
leaving the task pending for a later pass. -/
theorem fatal_and_recoverable_errors {α : Type} :
    (∀ (st : VideoTaskManager α) (t : VideoTask α),
      ¬((st.frame_id : Int) - (t.getFrameId : Int) > (st.buffer_size : Int)) →
      (∃ k ∈ t.required, k.default = none ∧
        cacheLookup st.data_cache (k.dtype, k.fid) = none) →
      evaluateTask st t = .ok (st, true)) ∧
    (∀ (st : VideoTaskManager α) (t : VideoTask α)
      (srcs : List (α × Option (String × Nat))),
      ¬((st.frame_id : Int) - (t.getFrameId : Int) > (st.buffer_size : Int)) →
      resolveInputs st.data_cache t.required = some srcs →
      t.execute (srcs.map (fun s => s.1)) = .nonEnumerable →
      ∃ c, evaluateTask st t = .error (.notEnumerable { st with data_cache := c })) ∧
    (∀ (st : VideoTaskManager α) (t : VideoTask α)
      (srcs : List (α × Option (String × Nat))) (l : List (RawItem α)),
      ¬((st.frame_id : Int) - (t.getFrameId : Int) > (st.buffer_size : Int)) →
      resolveInputs st.data_cache t.required = some srcs →
      t.execute (srcs.map (fun s => s.1)) = .items l →
      (∃ x ∈ l, x.size ≠ 3) →
      ∃ c, evaluateTask st t = .error (.badArity { st with data_cache := c })) ∧
    (∀ (st : VideoTaskManager α) (t : VideoTask α) (ts : List (VideoTask α))
      (e : VTMErr α),
      evaluateTask st t = .error e → evalPass st (t :: ts) = .error e) ∧
    (∀ (fuel : Nat) (st : VideoTaskManager α) (ts : List (VideoTask α))
      (e : VTMErr α),
      evalPass st ts = .error e → runTasksFuel (fuel + 1) st ts = .error e) ∧
    (∀ (st : VideoTaskManager α) (f : α) (e : VTMErr α),
      runTasks (addFramePre st f) = .error e → addFrame st f = .error e) := by
  refine ⟨?_, ?_, ?_, ?_, ?_, ?_⟩
  · intro st t hstale hmiss
    have hres := resolveInputs_none_of_missing t.required st.data_cache hmiss
    simp [evaluateTask, hstale, hres]
  · intro st t srcs hstale hres hexec
    refine ⟨touchAll st.data_cache (srcs.filterMap (fun s => s.2)), ?_⟩
    simp [evaluateTask, hstale, hres, hexec]
  · intro st t srcs l hstale hres hexec hbad
    obtain ⟨e, he⟩ := insertItems_err_of_bad l
      { st with data_cache := touchAll st.data_cache (srcs.filterMap (fun s => s.2)) }
      hbad
    obtain ⟨c, rfl⟩ := insertItems_err_shape _ _ _ he
    refine ⟨c, ?_⟩
    simp [evaluateTask, hstale, hres, hexec, he]
  · intro st t ts e he
    simp [evalPass, he]
  · intro fuel st ts e he
    simp [runTasksFuel, he]
  · intro st f e he
    simp [addFrame, he]

/-- A factory whose tasks require nothing and return a value on which
`len` raises. -/
def nonEnumFactory : Nat → VideoTask Nat :=
  fun fid => { frame_id := fid, args := [], execute := fun _ => .nonEnumerable }

/-- C4 witness: a blocked task is kept with no exception, and a task
returning a non-enumerable makes a concrete `addFrame` raise. -/
theorem fatal_and_recoverable_errors_witness :
    evaluateTask (initManager [blockedFactory] 3) (blockedFactory 0) =
      .ok (initManager [blockedFactory] 3, true) ∧
    ∃ e : VTMErr Nat, addFrame (initManager [nonEnumFactory] 3) 5 = .error e := by
  constructor
  · exact fatal_and_recoverable_errors.1 (initManager [blockedFactory] 3)
      (blockedFactory 0) (by decide) ⟨⟨"NOPE", 0, none⟩, by simp [blockedFactory, VideoTask.required], rfl, rfl⟩
  · exact ⟨_, fatal_and_recoverable_errors.2.2.2.2.2 (initManager [nonEnumFactory] 3) 5 _ rfl⟩

/-- C5: the evaluation loop terminates on every finite pending list: a
pass never grows the list, the loop stops as soon as a full pass keeps
exactly as many tasks as it started with, and any fuel beyond
`length + 1` computes the same result, i.e. the loop reaches its exit
within `length + 1` passes. -/
theorem evaluation_loop_terminates {α : Type} :
    (∀ (st st2 : VideoTaskManager α) (ts kept : List (VideoTask α)),
      evalPass st ts = .ok (st2, kept) → kept.length ≤ ts.length) ∧
    (∀ (fuel : Nat) (st st2 : VideoTaskManager α) (ts kept : List (VideoTask α)),
      evalPass st ts = .ok (st2, kept) → kept.length = ts.length →
      runTasksFuel (fuel + 1) st ts = .ok { st2 with task_list := kept }) ∧
    (∀ (fuel : Nat) (st : VideoTaskManager α) (ts : List (VideoTask α)),
      ts.length < fuel →
      runTasksFuel fuel st ts = runTasksFuel (ts.length + 1) st ts) := by
  refine ⟨fun st st2 ts kept h => evalPass_length ts st st2 kept h, ?_, ?_⟩
  · intro fuel st st2 ts kept hpass hlen
    simp [runTasksFuel, hpass, hlen]
  · intro fuel st ts hlt
    exact runTasksFuel_congr fuel (ts.length + 1) st ts hlt (Nat.lt_succ_self _)

/-- C5 witness: on a concrete singleton task list the loop with ample
fuel equals the loop with minimal fuel, and an unproductive pass stops
the loop. -/
theorem evaluation_loop_terminates_witness :
    runTasksFuel 7 (initManager [blockedFactory] 3) [blockedFactory 0] =
      runTasksFuel ([blockedFactory 0].length + 1)
        (initManager [blockedFactory] 3) [blockedFactory 0] :=
  evaluation_loop_terminates.2.2 7 (initManager [blockedFactory] 3)
    [blockedFactory 0] (by decide)

/-! ## Input resolution: cache hits, defaults, and new cache keys -/

lemma insertItems_new_keys :
    ∀ (l : List (RawItem α)) (st st2 : VideoTaskManager α) (k : String × Nat),
      insertItems st l = .ok st2 → cacheLookup st.data_cache k = none →
      ∀ it2, cacheLookup st2.data_cache k = some it2 →
      ∃ d f p, RawItem.triple d f p ∈ l ∧ k = (d, f) := by
  intro l
  induction l with
  | nil =>
    intro st st2 k h hk it2 hit
    simp only [insertItems, Except.ok.injEq] at h
    rw [← h, hk] at hit
    simp at hit
  | cons x rest ih =>
    intro st st2 k h hk it2 hit
    cases x with
    | triple d f p =>
      simp only [insertItems] at h
      by_cases hkey : k = (d, f)
      · exact ⟨d, f, p, List.mem_cons_self _ _, hkey⟩
      · have hk2 : cacheLookup (cacheInsert st.data_cache (d, f) ⟨d, f, p, 0⟩) k = none := by
          rw [cacheInsert_lookup, if_neg hkey, hk]
        obtain ⟨d2, f2, p2, hmem, hkeq⟩ := ih _ _ _ h hk2 it2 hit
        exact ⟨d2, f2, p2, List.mem_cons_of_mem _ hmem, hkeq⟩
    | malformed n hn => simp [insertItems] at h

/-- C6: for every optional-with-default request key, a cache hit takes
precedence: the cached payload is the one passed to `execute` and the
default is ignored; on a miss the default payload is substituted (with
nothing to touch, the synthetic item being one-shot); and a key absent
from the cache before an evaluation is present afterwards only if the
task's `execute` returned a triple with that key — in particular the
synthetic default item is never inserted into the cache. -/
theorem default_key_semantics {α : Type} :
    (∀ (cache : List ((String × Nat) × VideoDataItem α))
      (args : List (RequestKey α)) (res : List (α × Option (String × Nat))),
      resolveInputs cache args = some res →
      res.length = args.length ∧
      ∀ (i : Nat) (h1 : i < args.length) (h2 : i < res.length),
        (∀ it, cacheLookup cache (args[i].dtype, args[i].fid) = some it →
          res[i] = (it.getData, some (args[i].dtype, args[i].fid))) ∧
        (cacheLookup cache (args[i].dtype, args[i].fid) = none →
          args[i].default = some res[i].1 ∧ res[i].2 = none)) ∧
    (∀ (st st2 : VideoTaskManager α) (t : VideoTask α) (b : Bool)
      (k : String × Nat),
      evaluateTask st t = .ok (st2, b) → cacheLookup st.data_cache k = none →
      ∀ it2, cacheLookup st2.data_cache k = some it2 →
      ∃ srcs l, resolveInputs st.data_cache t.required = some srcs ∧
        t.execute (srcs.map (fun s => s.1)) = .items l ∧
        ∃ d f p, RawItem.triple d f p ∈ l ∧ k = (d, f)) := by
  constructor
  · intro cache args
    induction args with
    | nil =>
      intro res hres
      simp only [resolveInputs, Option.some.injEq] at hres
      refine ⟨by rw [← hres]; rfl, ?_⟩
      intro i h1
      simp at h1
    | cons k0 ks ih =>
      intro res hres
      simp only [resolveInputs] at hres
      cases hl : cacheLookup cache (k0.dtype, k0.fid) with
      | some item =>
        rw [hl] at hres
        cases hrec : resolveInputs cache ks with
        | none => rw [hrec] at hres; simp at hres
        | some rest =>
          rw [hrec] at hres
          simp only [Option.map_some', Option.some.injEq] at hres
          obtain ⟨hlen, hpt⟩ := ih rest hrec
          subst hres
          refine ⟨by simp [hlen], ?_⟩
          intro i h1 h2
          cases i with
          | zero =>
            constructor
            · intro it hit
              simp only [List.getElem_cons_zero] at hit ⊢
              rw [hl] at hit
              obtain rfl := Option.some.inj hit
              simp [VideoDataItem.getData]
            · intro hnone
              simp only [List.getElem_cons_zero] at hnone
              rw [hl] at hnone
              simp at hnone
          | succ j =>
            simp only [List.getElem_cons_succ]
            exact hpt j (by simpa using h1) (by simpa using h2)
      | none =>
        rw [hl] at hres
        cases hd : k0.default with
        | some v =>
          rw [hd] at hres
          cases hrec : resolveInputs cache ks with
          | none => rw [hrec] at hres; simp at hres
          | some rest =>
            rw [hrec] at hres
            simp only [Option.map_some', Option.some.injEq] at hres
            obtain ⟨hlen, hpt⟩ := ih rest hrec
            subst hres
            refine ⟨by simp [hlen], ?_⟩
            intro i h1 h2
            cases i with
            | zero =>
              constructor
              · intro it hit
                simp only [List.getElem_cons_zero] at hit
                rw [hl] at hit
                simp at hit
              · intro _
                simp [hd]
            | succ j =>
              simp only [List.getElem_cons_succ]
              exact hpt j (by simpa using h1) (by simpa using h2)
        | none => rw [hd] at hres; simp at hres
  · intro st st2 t b k h hk it2 hit
    simp only [evaluateTask] at h
    split at h
    · obtain ⟨h1, _⟩ := Prod.mk.injEq .. ▸ Except.ok.inj h
      rw [← h1, hk] at hit
      simp at hit
    · split at h
      · obtain ⟨h1, _⟩ := Prod.mk.injEq .. ▸ Except.ok.inj h
        rw [← h1, hk] at hit
        simp at hit
      · rename_i srcs hres
        split at h
        · simp at h
        · rename_i l hexec
          split at h
          · simp at h
          · rename_i st3 hins
            obtain ⟨h1, _⟩ := Prod.mk.injEq .. ▸ Except.ok.inj h
            rw [← h1] at hit
            have hk1 : cacheLookup
                (touchAll st.data_cache (srcs.filterMap (fun s => s.2))) k = none :=
              (touchAll_lookup_none _ _ _).mpr hk
            obtain ⟨d, f, p, hmem, hkeq⟩ :=
              insertItems_new_keys l _ _ k hins hk1 it2 hit
            exact ⟨srcs, l, hres, hexec, d, f, p, hmem, hkeq⟩

def wCache : List ((String × Nat) × VideoDataItem Nat) :=
  [(("A", 0), ⟨"A", 0, 42, 0⟩)]

def wArgs : List (RequestKey Nat) :=
  [⟨"A", 0, some 99⟩, ⟨"B", 1, some 7⟩]

def wRes : List (Nat × Option (String × Nat)) :=
  [(42, some ("A", 0)), (7, none)]

/-- C6 witness: on a concrete cache and request list, the cached
payload 42 wins over the default 99 for the first key, and the default
7 is substituted for the missing second key. -/
theorem default_key_semantics_witness :
    wRes.get ⟨0, by decide⟩ =
      ((VideoDataItem.getData ⟨"A", 0, 42, 0⟩ : Nat), some ("A", 0)) ∧
    (wArgs.get ⟨1, by decide⟩).default = some (wRes.get ⟨1, by decide⟩).1 ∧
    (wRes.get ⟨1, by decide⟩).2 = none := by
  have h := (default_key_semantics (α := Nat)).1 wCache wArgs wRes rfl
  exact ⟨(h.2 0 (by decide) (by decide)).1 ⟨"A", 0, 42, 0⟩ rfl,
    ((h.2 1 (by decide) (by decide)).2 rfl).1,
    ((h.2 1 (by decide) (by decide)).2 rfl).2⟩

/-! ## Partial insertion before an arity error -/

lemma insertItems_prefix_err :
    ∀ (pre : List (RawItem α)) (st : VideoTaskManager α) (n : Nat)
      (hn : n ≠ 3) (rest : List (RawItem α)),
      (∀ x ∈ pre, ∃ d f p, x = RawItem.triple d f p) →
      ∃ c, insertItems st (pre ++ RawItem.malformed n hn :: rest) =
          .error (.badArity { st with data_cache := c }) ∧
        (∀ d f p, RawItem.triple d f p ∈ pre → ∃ it, cacheLookup c (d, f) = some it) ∧
        (∀ k it0, cacheLookup st.data_cache k = some it0 →
          ∃ it, cacheLookup c k = some it) := by
  intro pre
  induction pre with
  | nil =>
    intro st n hn rest _
    exact ⟨st.data_cache, rfl, by simp, fun k it0 h => ⟨it0, h⟩⟩
  | cons x pre2 ih =>
    intro st n hn rest hx
    obtain ⟨d0, f0, p0, rfl⟩ := hx x (List.mem_cons_self _ _)
    obtain ⟨c, heq, hpres, hmono⟩ :=
      ih { st with data_cache := cacheInsert st.data_cache (d0, f0) ⟨d0, f0, p0, 0⟩ }
        n hn rest (fun y hy => hx y (List.mem_cons_of_mem _ hy))
    refine ⟨c, heq, ?_, ?_⟩
    · intro d f p hmem
      rcases List.mem_cons.mp hmem with heq2 | hmem2
      · obtain ⟨rfl, rfl, rfl⟩ := RawItem.triple.inj heq2
        refine hmono (d, f) ⟨d, f, p, 0⟩ ?_
        rw [cacheInsert_lookup, if_pos rfl]
      · exact hpres d f p hmem2
    · intro k it0 hit0
      by_cases hkey : k = (d0, f0)
      · refine hmono k ⟨d0, f0, p0, 0⟩ ?_
        rw [cacheInsert_lookup, if_pos hkey]
      · refine hmono k it0 ?_
        rw [cacheInsert_lookup, if_neg hkey, hit0]

/-- C9: when a task's `execute` returns a list whose k-th element does
not have length 3, the arity exception reaches the `addFrame` caller
only after the triples preceding the bad element have already been
inserted into the data cache (the failure is not atomic with respect to
the cache), and an `addFrame` call that raises leaves the frame counter
unincremented and releases no frame. -/
theorem partial_results_on_arity_error {α : Type} :
    (∀ (st : VideoTaskManager α) (t : VideoTask α)
      (srcs : List (α × Option (String × Nat))) (pre : List (RawItem α))
      (n : Nat) (hn : n ≠ 3) (rest : List (RawItem α)),
      ¬((st.frame_id : Int) - (t.getFrameId : Int) > (st.buffer_size : Int)) →
      resolveInputs st.data_cache t.required = some srcs →
      t.execute (srcs.map (fun s => s.1)) =
        .items (pre ++ RawItem.malformed n hn :: rest) →
      (∀ x ∈ pre, ∃ d f p, x = RawItem.triple d f p) →
      ∃ c, evaluateTask st t = .error (.badArity { st with data_cache := c }) ∧
        ∀ d f p, RawItem.triple d f p ∈ pre →
          ∃ it, cacheLookup c (d, f) = some it) ∧
    (∀ (st : VideoTaskManager α) (f : α) (e : VTMErr α),
      addFrame st f = .error e →
      e.state.frame_id = st.frame_id ∧ e.state.released = st.released) := by
  constructor
  · intro st t srcs pre n hn rest hstale hres hexec hx
    obtain ⟨c, heq, hpres, _⟩ := insertItems_prefix_err pre
      { st with data_cache := touchAll st.data_cache (srcs.filterMap (fun s => s.2)) }
      n hn rest hx
    refine ⟨c, ?_, hpres⟩
    simp [evaluateTask, hstale, hres, hexec, heq]
  · intro st f e h
    simp only [addFrame] at h
    split at h
    · rename_i e2 hrt
      obtain rfl := (Except.error.inj h).symm
      obtain ⟨c, l, hc⟩ := runTasksFuel_err_shape _ _ _ _ hrt
      rw [hc]
      exact ⟨rfl, rfl⟩
    · simp at h

def badArityTask : VideoTask Nat :=
  { frame_id := 0, args := [],
    execute := fun _ => .items [.triple "A" 0 1, .malformed 2 (by decide)] }

/-- C9 witness: evaluating a concrete task that returns a good triple
followed by a length-2 item raises the arity error with the first
triple already cached. -/
theorem partial_results_on_arity_error_witness :
    ∃ c, evaluateTask (initManager ([] : List (Nat → VideoTask Nat)) 3) badArityTask =
        .error (.badArity { initManager [] 3 with data_cache := c }) ∧
      ∀ d f p, RawItem.triple d f p ∈ [RawItem.triple "A" 0 1] →
        ∃ it, cacheLookup c (d, f) = some it :=
  (partial_results_on_arity_error (α := Nat)).1 (initManager [] 3) badArityTask
    [] [.triple "A" 0 1] 2 (by decide) [] (by decide) rfl rfl
    (by intro x hx; rcases List.mem_singleton.mp hx with rfl; exact ⟨_, _, _, rfl⟩)

/-- C10: frame release does not consult the data cache: `showFrames`
commutes with any replacement of the cache and never modifies it, and
the released items are the leading entries of the frame queue
themselves, carried with their originally stored payloads — so a frame
whose FRAME item was evicted from the cache is still released intact
once no pending task carries its frame id. -/
theorem release_independent_of_cache {α : Type} :
    (∀ (st : VideoTaskManager α)
      (c : List ((String × Nat) × VideoDataItem α)),
      showFrames { st with data_cache := c } =
        { showFrames st with data_cache := c }) ∧
    (∀ st : VideoTaskManager α, (showFrames st).data_cache = st.data_cache) ∧
    (∀ st : VideoTaskManager α, ∃ taken rest,
      st.frame_list = taken ++ rest ∧
      (showFrames st).released = st.released ++ taken ∧
      (showFrames st).frame_list = rest ∧
      ∀ d ∈ taken, remainingTasksForFrame st d.getFrameId = 0) := by
  refine ⟨fun st c => rfl, fun st => rfl, ?_⟩
  intro st
  obtain ⟨hdec, hmem, _⟩ := showFramesAux_spec st.task_list st.frame_list
  exact ⟨(showFramesAux st.task_list st.frame_list).1,
    (showFramesAux st.task_list st.frame_list).2, hdec, rfl, rfl, hmem⟩

/-- C10 witness: on a concrete manager state, replacing the data cache
before release commutes with releasing and then replacing it. -/
theorem release_independent_of_cache_witness :
    showFrames { initManager ([] : List (Nat → VideoTask Nat)) 2 with data_cache := wCache } =
      { showFrames (initManager [] 2) with data_cache := wCache } :=
  (release_independent_of_cache (α := Nat)).1 (initManager [] 2) wCache

end PyVision
